import Mathlib

/-!
Verification of the AWS knowledge relay server (`app.py`).

The development shallowly embeds the parts of the program the properties
below speak about:

* a model `J` of the Python values handled by `json.loads` / `json.dumps`
  (JSON numbers are modelled as integers; float-valued payloads are outside
  the model, so the embedded `loads` rejects fractional or exponent forms
  where CPython would build a `float`),
* the response normalizer `format_content` with its envelope unwrap and
  null-field stripping,
* the renderer `dumps` (CPython `json.dumps(value, indent=2)`, with its
  default `ensure_ascii` escaping including surrogate pairs) and the
  parser `loads` (CPython `json.loads`, strict mode),
* the per-call connection lifecycle `AWSClientContext` and the five tool
  handlers, as explicit state passing over open/close counters, with
  raised exceptions embedded as `Except`.
-/

namespace App

/-- A Python value as produced by `json.loads`: null, booleans, integers,
strings, lists and dicts (dicts keep insertion order, keys unique). -/
inductive J where
  | null
  | bool (b : Bool)
  | num (n : Int)
  | str (s : String)
  | arr (items : List J)
  | obj (members : List (String × J))

/-- Python `d.get(k)`: the value at the first (only) occurrence of `k`. -/
def dictGet (m : List (String × J)) (k : String) : Option J :=
  match m with
  | [] => none
  | (k1, v) :: rest => if k1 = k then some v else dictGet rest k

/-- Python `k in d`. -/
def hasKey (m : List (String × J)) (k : String) : Bool :=
  match dictGet m k with
  | some _ => true
  | none => false

/-- Python `d.pop(k, None)`: drop the entry at `k` when present. -/
def dictPop (m : List (String × J)) (k : String) : List (String × J) :=
  match m with
  | [] => []
  | (k1, v) :: rest => if k1 = k then rest else (k1, v) :: dictPop rest k

/-- Python `d[k] = v`: replace in place when the key exists, else append. -/
def pyInsert (m : List (String × J)) (k : String) (v : J) : List (String × J) :=
  match m with
  | [] => [(k, v)]
  | (k1, v1) :: rest => if k1 = k then (k, v) :: rest else (k1, v1) :: pyInsert rest k v

/-- Python `dict(pairs)`: successive insertion of each pair. -/
def mkDict (pairs : List (String × J)) : List (String × J) :=
  pairs.foldl (fun acc kv => pyInsert acc kv.1 kv.2) []

mutual
/-- Well-formedness as a Python value: every dict has pairwise distinct keys. -/
def wfVal : J → Bool
  | .null => true
  | .bool _ => true
  | .num _ => true
  | .str _ => true
  | .arr items => wfItems items
  | .obj members => wfMembers members
def wfItems : List J → Bool
  | [] => true
  | x :: xs => wfVal x && wfItems xs
def wfMembers : List (String × J) → Bool
  | [] => true
  | (k, v) :: rest => !hasKey rest k && wfVal v && wfMembers rest
end

/-! ### The renderer: CPython `json.dumps(value, indent=2)` -/

/-- The decimal digit character for `d < 10`. -/
def decCh (d : Nat) : Char := Char.ofNat ('0'.toNat + d)

/-- The lowercase hex digit character for `d < 16` (CPython `%04x`). -/
def hexCh (d : Nat) : Char :=
  if d < 10 then Char.ofNat ('0'.toNat + d) else Char.ofNat ('a'.toNat + (d - 10))

/-- Four lowercase hex digits of `n < 0x10000`, most significant first. -/
def hex4Chars (n : Nat) : List Char :=
  [hexCh (n / 4096 % 16), hexCh (n / 256 % 16), hexCh (n / 16 % 16), hexCh (n % 16)]

/-- Decimal digits of `n` prepended to `acc`; `fuel` bounds the recursion and
never runs out when `n < fuel`. -/
def natCharsAux : Nat → Nat → List Char → List Char
  | 0, _, acc => acc
  | fuel + 1, n, acc =>
      if n < 10 then decCh n :: acc
      else natCharsAux fuel (n / 10) (decCh (n % 10) :: acc)

/-- Decimal digit characters of `n`, most significant first. -/
def natChars (n : Nat) : List Char := natCharsAux (n + 1) n []

/-- CPython `repr` of an `int`: optional minus sign, then decimal digits. -/
def intChars (i : Int) : List Char :=
  if i < 0 then '-' :: natChars i.natAbs else natChars i.natAbs

/-- One character as `json.dumps` emits it under `ensure_ascii` (the default):
printable ASCII passes through, `"`, `\` and the short control escapes use
two-character escapes, every other codepoint becomes `\uXXXX`, astral
codepoints a UTF-16 surrogate pair. -/
def escChar (c : Char) : List Char :=
  if c = '"' then ['\\', '"']
  else if c = '\\' then ['\\', '\\']
  else if c = '\x08' then ['\\', 'b']
  else if c = '\t' then ['\\', 't']
  else if c = '\n' then ['\\', 'n']
  else if c = '\x0c' then ['\\', 'f']
  else if c = '\r' then ['\\', 'r']
  else if c.toNat < 0x20 then '\\' :: 'u' :: hex4Chars c.toNat
  else if c.toNat ≤ 0x7e then [c]
  else if c.toNat < 0x10000 then '\\' :: 'u' :: hex4Chars c.toNat
  else
    '\\' :: 'u' :: hex4Chars (0xd800 + (c.toNat - 0x10000) / 0x400)
      ++ '\\' :: 'u' :: hex4Chars (0xdc00 + (c.toNat - 0x10000) % 0x400)

/-- A rendered string literal: `"` , the escaped characters, `"`. -/
def strChars (s : String) : List Char :=
  '"' :: (s.data.flatMap escChar ++ ['"'])

/-- The `2 * d` spaces that `indent=2` places before an entry at depth `d`. -/
def indentChars (d : Nat) : List Char := List.replicate (2 * d) ' '

mutual
/-- Characters of `json.dumps(v, indent=2)` for a value at depth `d`. -/
def dumpVal : Nat → J → List Char
  | _, .null => ['n', 'u', 'l', 'l']
  | _, .bool true => ['t', 'r', 'u', 'e']
  | _, .bool false => ['f', 'a', 'l', 's', 'e']
  | _, .num i => intChars i
  | _, .str s => strChars s
  | _, .arr [] => ['[', ']']
  | d, .arr (x :: xs) =>
      '[' :: '\n' :: (indentChars (d + 1) ++ (dumpVal (d + 1) x ++ dumpItemSep (d + 1) xs
        ++ '\n' :: (indentChars d ++ [']'])))
  | _, .obj [] => ['\x7b', '\x7d']
  | d, .obj (kv :: kvs) =>
      '\x7b' :: '\n' :: (indentChars (d + 1) ++ (strChars kv.1 ++ ':' :: ' ' :: dumpVal (d + 1) kv.2
        ++ dumpMemberSep (d + 1) kvs ++ '\n' :: (indentChars d ++ ['\x7d'])))
def dumpItemSep : Nat → List J → List Char
  | _, [] => []
  | d, x :: xs => ',' :: '\n' :: (indentChars d ++ (dumpVal d x ++ dumpItemSep d xs))
def dumpMemberSep : Nat → List (String × J) → List Char
  | _, [] => []
  | d, kv :: kvs =>
      ',' :: '\n' :: (indentChars d ++ (strChars kv.1 ++ ':' :: ' ' :: dumpVal d kv.2
        ++ dumpMemberSep d kvs))
end

/-- CPython `json.dumps(v, indent=2)` as used by `format_content`. -/
def dumps (v : J) : String := String.mk (dumpVal 0 v)

/-! ### The parser: CPython `json.loads` (strict mode) -/

/-- The whitespace characters the scanner skips. -/
def isWsCh (c : Char) : Bool := c = ' ' || c = '\t' || c = '\n' || c = '\r'

/-- Drop leading whitespace. -/
def skipWs : List Char → List Char
  | [] => []
  | c :: cs => if isWsCh c then skipWs cs else c :: cs

/-- Decimal digit test. -/
def isDigitCh (c : Char) : Bool := '0' ≤ c && c ≤ '9'

/-- The value of a hex digit character (either case accepted). -/
def hexVal (c : Char) : Option Nat :=
  let n := c.toNat
  if 48 ≤ n ∧ n < 58 then some (n - 48)
  else if 97 ≤ n ∧ n < 103 then some (n - 87)
  else if 65 ≤ n ∧ n < 71 then some (n - 55)
  else none

/-- The value of a `\uXXXX` escape's four hex digits. -/
def hex4Val (a b c d : Char) : Option Nat :=
  match hexVal a, hexVal b, hexVal c, hexVal d with
  | some x, some y, some z, some w => some (((x * 16 + y) * 16 + z) * 16 + w)
  | _, _, _, _ => none

/-- The character a two-character escape denotes. -/
def shortEsc : Char → Option Char
  | '"' => some '"'
  | '\\' => some '\\'
  | '/' => some '/'
  | 'b' => some '\x08'
  | 'f' => some '\x0c'
  | 'n' => some '\n'
  | 'r' => some '\r'
  | 't' => some '\t'
  | _ => none

/-- Parse a string body after the opening quote: strict mode rejects raw
control characters; `\uXXXX` escapes combine UTF-16 surrogate pairs (a lone
surrogate, representable in a CPython `str` but not in a `Char`, is outside
the model and rejected). -/
def parseStrBody : Nat → List Char → List Char → Option (String × List Char)
  | 0, _, _ => none
  | fuel + 1, acc, cs =>
      match cs with
      | [] => none
      | c :: rest =>
          if c = '"' then some (String.mk acc.reverse, rest)
          else if c = '\\' then
            match rest with
            | [] => none
            | e :: rest2 =>
                if e = 'u' then
                  match rest2 with
                  | a :: b :: c1 :: d1 :: rest3 =>
                      match hex4Val a b c1 d1 with
                      | none => none
                      | some n =>
                          if 0xd800 ≤ n ∧ n ≤ 0xdbff then
                            match rest3 with
                            | s1 :: s2 :: a2 :: b2 :: c2 :: d2 :: rest4 =>
                                if s1 = '\\' ∧ s2 = 'u' then
                                  match hex4Val a2 b2 c2 d2 with
                                  | none => none
                                  | some n2 =>
                                      if 0xdc00 ≤ n2 ∧ n2 ≤ 0xdfff then
                                        parseStrBody fuel (Char.ofNat
                                          (0x10000 + (n - 0xd800) * 0x400 + (n2 - 0xdc00)) :: acc)
                                          rest4
                                      else none
                                else none
                            | _ => none
                          else if 0xdc00 ≤ n ∧ n ≤ 0xdfff then none
                          else parseStrBody fuel (Char.ofNat n :: acc) rest3
                  | _ => none
                else
                  match shortEsc e with
                  | some ch => parseStrBody fuel (ch :: acc) rest2
                  | none => none
          else if c.toNat < 0x20 then none
          else parseStrBody fuel (c :: acc) rest

/-- Parse a string body; one unit of fuel per produced character, so the
input length bounds the recursion. -/
def parseStr (cs : List Char) : Option (String × List Char) :=
  parseStrBody (cs.length + 1) [] cs

/-- The longest leading run of decimal digits, and the remainder. -/
def takeDigitsRun : List Char → List Char × List Char
  | [] => ([], [])
  | c :: cs =>
      if isDigitCh c then
        let p := takeDigitsRun cs
        (c :: p.1, p.2)
      else ([], c :: cs)

/-- The number a digit run denotes. -/
def digitsVal (ds : List Char) : Nat :=
  ds.foldl (fun acc d => acc * 10 + (d.toNat - '0'.toNat)) 0

/-- Parse the integer part of a number: a single `0`, or a nonzero digit
followed by a digit run (the scanner's `0|[1-9][0-9]*`). -/
def parseIntDigits : List Char → Option (Nat × List Char)
  | [] => none
  | c :: rest =>
      if c = '0' then some (0, rest)
      else if isDigitCh c then
        let p := takeDigitsRun rest
        some (digitsVal (c :: p.1), p.2)
      else none

/-- A remainder whose head would extend the integer part into a float form. -/
def floatFollows : List Char → Bool
  | [] => false
  | c :: _ => c = '.' || c = 'e' || c = 'E'

/-- Attach the sign and reject float forms (a following `.`, `e` or `E` would
make CPython build a `float`; floats are outside the model). -/
def finishNumber (neg : Bool) (pr : Option (Nat × List Char)) : Option (Int × List Char) :=
  match pr with
  | none => none
  | some (n, r) =>
      if floatFollows r then none
      else some (if neg then -(n : Int) else (n : Int), r)

/-- Parse an integer literal: optional minus sign, then the integer part. -/
def parseNumber (cs : List Char) : Option (Int × List Char) :=
  match cs with
  | '-' :: r => finishNumber true (parseIntDigits r)
  | _ => finishNumber false (parseIntDigits cs)

/-- Expect the literal characters `lit` as a prefix of the input. -/
def expectChars : List Char → List Char → Option (List Char)
  | [], cs => some cs
  | _ :: _, [] => none
  | l :: ls, c :: cs => if c = l then expectChars ls cs else none

mutual
/-- Parse one value (the scanner's `scan_once`), recursing on `fuel`. -/
def parseVal : Nat → List Char → Option (J × List Char)
  | 0, _ => none
  | fuel + 1, cs =>
    match skipWs cs with
    | [] => none
    | c :: r =>
        if c = 'n' then
          match expectChars ['u', 'l', 'l'] r with
          | some r2 => some (.null, r2)
          | none => none
        else if c = 't' then
          match expectChars ['r', 'u', 'e'] r with
          | some r2 => some (.bool true, r2)
          | none => none
        else if c = 'f' then
          match expectChars ['a', 'l', 's', 'e'] r with
          | some r2 => some (.bool false, r2)
          | none => none
        else if c = '"' then
          match parseStr r with
          | some (s, r1) => some (.str s, r1)
          | none => none
        else if c = '[' then
          match skipWs r with
          | [] => none
          | c2 :: r1 =>
              if c2 = ']' then some (.arr [], r1)
              else
                match parseItems fuel (c2 :: r1) with
                | some (items, r2) => some (.arr items, r2)
                | none => none
        else if c = '\x7b' then
          match skipWs r with
          | [] => none
          | c2 :: r1 =>
              if c2 = '\x7d' then some (.obj [], r1)
              else
                match parseMembers fuel (c2 :: r1) with
                | some (pairs, r2) => some (.obj (mkDict pairs), r2)
                | none => none
        else if c = '-' || isDigitCh c then
          match parseNumber (c :: r) with
          | some (i, r1) => some (.num i, r1)
          | none => none
        else none
/-- Parse the elements of a non-empty array, consuming the closing bracket. -/
def parseItems : Nat → List Char → Option (List J × List Char)
  | 0, _ => none
  | fuel + 1, cs =>
    match parseVal fuel cs with
    | none => none
    | some (v, r) =>
        match skipWs r with
        | [] => none
        | c :: r1 =>
            if c = ',' then
              match parseItems fuel r1 with
              | some (vs, r2) => some (v :: vs, r2)
              | none => none
            else if c = ']' then some ([v], r1)
            else none
/-- Parse the members of a non-empty object, consuming the closing brace. -/
def parseMembers : Nat → List Char → Option (List (String × J) × List Char)
  | 0, _ => none
  | fuel + 1, cs =>
    match skipWs cs with
    | [] => none
    | c :: r =>
        if c = '"' then
          match parseStr r with
          | none => none
          | some (k, r1) =>
              match skipWs r1 with
              | [] => none
              | c2 :: r2 =>
                  if c2 = ':' then
                    match parseVal fuel r2 with
                    | none => none
                    | some (v, r3) =>
                        match skipWs r3 with
                        | [] => none
                        | c3 :: r4 =>
                            if c3 = ',' then
                              match parseMembers fuel r4 with
                              | some (ms, r5) => some ((k, v) :: ms, r5)
                              | none => none
                            else if c3 = '\x7d' then some ([(k, v)], r4)
                            else none
                  else none
        else none
end

/-- CPython `json.loads`: parse one value, then require only whitespace to
follow ("Extra data" otherwise). -/
def loads (s : String) : Option J :=
  match parseVal (s.data.length + 1) s.data with
  | some (v, rest) => if skipWs rest = [] then some v else none
  | none => none

/-- A remainder that cannot extend a rendered number literal: empty, or
starting with a character that is neither a digit nor `.`, `e`, `E`. -/
def numStop : List Char → Bool
  | [] => true
  | c :: _ => !(isDigitCh c || c = '.' || c = 'e' || c = 'E')

/-! ### The content normalizer `format_content` -/

/-- Python `if d.get(k) is None: d.pop(k, None)`: drop the entry at `k` when
its value is null; keep the dict unchanged when the key is absent or its
value is not null. -/
def popIfNull (m : List (String × J)) (k : String) : List (String × J) :=
  match dictGet m k with
  | none => m
  | some .null => dictPop m k
  | some _ => m

/-- Lines 21-31 of `app.py`: on a parsed object carrying the AWS response
envelope (`content` holding an object whose `result` is an object), replace
the working value by that `result` object and drop its null-valued
`next_token` and `failed_regions` fields; any other value is untouched. -/
def processParsed (p : J) : J :=
  match p with
  | .obj m =>
      match dictGet m "content" with
      | some (.obj inner) =>
          match dictGet inner "result" with
          | some (.obj r) => .obj (popIfNull (popIfNull r "next_token") "failed_regions")
          | _ => p
      | _ => p
  | _ => p

/-- The per-block body of `format_content`: parse the payload as JSON, apply
`processParsed` and re-render with `indent=2`; on a parse failure the raw
text is used verbatim. -/
def formatTextBlock (s : String) : String :=
  match loads s with
  | some parsed => dumps (processParsed parsed)
  | none => s

/-- One response content block: a tagged union whose `text` variant carries
the string payload; other variants model the non-text block kinds. -/
inductive ContentBlock where
  | text (text : String)
  | image (data mimeType : String)
  | resource (uri : String)

/-- The `type` tag that `format_content` compares against `"text"`. -/
def ContentBlock.type : ContentBlock → String
  | .text _ => "text"
  | .image _ _ => "image"
  | .resource _ => "resource"

/-- The loop of `format_content`: collect the rendering of each block whose
`type` tag is `"text"` (exactly the `text` variant), in order. -/
def collectTexts : List ContentBlock → List String
  | [] => []
  | .text t :: rest => formatTextBlock t :: collectTexts rest
  | _ :: rest => collectTexts rest

/-- `format_content` from `app.py`: join the rendered text blocks with
newlines. -/
def format_content (content : List ContentBlock) : String :=
  String.intercalate "\n" (collectTexts content)

/-! ### Connection scope and tool handlers

A tool invocation is modelled as explicit state passing: the state counts
how often each resource of `AWSClientContext` was opened and closed and how
often `stack.aclose()` ran; the environment says which lifecycle step fails
and what the upstream call returns. Raised Python exceptions are the
`Except.error` branch. -/

/-- The payload of a raised `McpError` (`mcp.types.ErrorData`). -/
structure ErrorData where
  code : Int
  message : String

/-- `mcp.types.INTERNAL_ERROR`. -/
def INTERNAL_ERROR : Int := -32603

/-- The behaviour of the transport and the upstream service for one
invocation: which acquisition step raises (with which message), and the
outcome of `session.call_tool` per call name and argument set. -/
structure Env where
  transportFails : Bool
  transportMsg : String
  sessionFails : Bool
  sessionMsg : String
  initFails : Bool
  initMsg : String
  callOutcome : String → List (String × J) → Except String (List ContentBlock)

/-- Open/close counters of one invocation's connection scope. -/
structure St where
  transportOpened : Nat
  transportClosed : Nat
  sessionOpened : Nat
  sessionClosed : Nat
  acloseCalls : Nat

/-- The state before an invocation: nothing opened, nothing closed. -/
def St.start : St := ⟨0, 0, 0, 0, 0⟩

/-- `AWSClientContext.__aenter__`: enter the streamable HTTP transport, enter
the client session, run the handshake; on any failure close what was opened
(via `stack.aclose()`, in reverse order) and raise `McpError` with a
`Connection Error:` message wrapping the cause. -/
def AWSClientContext.aenter (env : Env) (st : St) : Except ErrorData Unit × St :=
  if env.transportFails then
    (.error ⟨INTERNAL_ERROR, "Connection Error: " ++ env.transportMsg⟩,
      { st with acloseCalls := st.acloseCalls + 1 })
  else
    let st1 := { st with transportOpened := st.transportOpened + 1 }
    if env.sessionFails then
      (.error ⟨INTERNAL_ERROR, "Connection Error: " ++ env.sessionMsg⟩,
        { st1 with transportClosed := st1.transportClosed + 1,
                   acloseCalls := st1.acloseCalls + 1 })
    else
      let st2 := { st1 with sessionOpened := st1.sessionOpened + 1 }
      if env.initFails then
        (.error ⟨INTERNAL_ERROR, "Connection Error: " ++ env.initMsg⟩,
          { st2 with sessionClosed := st2.sessionClosed + 1,
                     transportClosed := st2.transportClosed + 1,
                     acloseCalls := st2.acloseCalls + 1 })
      else (.ok (), st2)

/-- `AWSClientContext.__aexit__`: `stack.aclose()` closes the session and the
transport, in reverse order of acquisition. -/
def AWSClientContext.aexit (st : St) : St :=
  { st with sessionClosed := st.sessionClosed + 1,
            transportClosed := st.transportClosed + 1,
            acloseCalls := st.acloseCalls + 1 }

/-- The shared shape of the five handlers: `async with AWSClientContext()`
around a `try` block that issues the upstream call and normalizes the
content, returning `errLabel ++ msg` when the call raises. A failure of
`__aenter__` propagates (the `with` body and `__aexit__` do not run);
failures inside the body are caught and `__aexit__` still runs. -/
def runTool (env : Env) (errLabel callName : String) (args : List (String × J)) :
    Except ErrorData String × St :=
  match AWSClientContext.aenter env St.start with
  | (.error e, st) => (.error e, st)
  | (.ok _, st) =>
      let res : Except ErrorData String :=
        match env.callOutcome callName args with
        | .ok content => .ok (format_content content)
        | .error msg => .ok (errLabel ++ msg)
      (res, AWSClientContext.aexit st)

/-- Argument mapping of `search_documentation`: `query` becomes
`search_phrase`; `topics` only when truthy (a non-empty list). -/
def searchArgs (query : String) (topics : Option (List String)) : List (String × J) :=
  match topics with
  | some (t :: ts) => [("search_phrase", .str query), ("topics", .arr ((t :: ts).map .str))]
  | _ => [("search_phrase", .str query)]

/-- Argument mapping of `read_documentation`: pass-through, optional fields
only when provided (`is not None`). -/
def readArgs (url : String) (start_index max_length : Option Int) : List (String × J) :=
  let args1 := [("url", .str url)]
  let args2 := match start_index with
    | some i => args1 ++ [("start_index", .num i)]
    | none => args1
  match max_length with
  | some i => args2 ++ [("max_length", .num i)]
  | none => args2

/-- The `filters` argument of `get_regional_availability`:
`Union[List[str], str, None]`. -/
inductive FiltersArg where
  | omitted
  | str (s : String)
  | list (l : List String)

/-- Python truthiness of the `filters` value (`if filters:`). -/
def FiltersArg.truthy : FiltersArg → Bool
  | .omitted => false
  | .str s => !(s == "")
  | .list l => !l.isEmpty

/-- The normalized `filters` value: a string is JSON-decoded and used when
that yields a list, otherwise the original string is wrapped as a singleton;
a list is used verbatim. -/
def gaFilters : FiltersArg → J
  | .str s =>
      match loads s with
      | some (.arr l) => .arr l
      | _ => .arr [.str s]
  | .list l => .arr (l.map .str)
  | .omitted => .arr []

/-- Argument mapping of `get_regional_availability`: `resource_type` and
`region` always; a `filters` key exactly when the caller's value is truthy,
holding the normalized list. -/
def gaArgs (resource_type region : String) (filters : FiltersArg) : List (String × J) :=
  let args := [("resource_type", .str resource_type), ("region", .str region)]
  if filters.truthy then args ++ [("filters", gaFilters filters)] else args

/-- The `search_documentation` handler. -/
def search_documentation (env : Env) (query : String) (topics : Option (List String)) :
    Except ErrorData String × St :=
  runTool env "Error searching documentation: " "aws___search_documentation"
    (searchArgs query topics)

/-- The `read_documentation` handler. -/
def read_documentation (env : Env) (url : String) (start_index max_length : Option Int) :
    Except ErrorData String × St :=
  runTool env "Error reading documentation: " "aws___read_documentation"
    (readArgs url start_index max_length)

/-- The `recommend` handler. -/
def recommend (env : Env) (url : String) : Except ErrorData String × St :=
  runTool env "Error getting recommendations: " "aws___recommend" [("url", .str url)]

/-- The `list_regions` handler. -/
def list_regions (env : Env) : Except ErrorData String × St :=
  runTool env "Error listing regions: " "aws___list_regions" []

/-- The `get_regional_availability` handler. -/
def get_regional_availability (env : Env) (resource_type region : String)
    (filters : FiltersArg) : Except ErrorData String × St :=
  runTool env "Error checking availability: " "aws___get_regional_availability"
    (gaArgs resource_type region filters)

/-- A scope whose release ran exactly once and closed everything it opened. -/
def St.balanced (st : St) : Prop :=
  st.acloseCalls = 1
    ∧ st.transportOpened = st.transportClosed
    ∧ st.sessionOpened = st.sessionClosed

/-- An environment whose transport connect raises with message `boom`. -/
def envConnFail : Env :=
  { transportFails := true, transportMsg := "boom", sessionFails := false, sessionMsg := "",
    initFails := false, initMsg := "", callOutcome := fun _ _ => .ok [] }

/-! ### Basic lemmas on the normalizer's dict operations -/

theorem dictGet_dictPop_ne (m : List (String × J)) (k k' : String) (h : k' ≠ k) :
    dictGet (dictPop m k) k' = dictGet m k' := by
  induction m with
  | nil => rfl
  | cons kv rest ih =>
      obtain ⟨k1, v1⟩ := kv
      by_cases h1 : k1 = k
      · have h3 : ¬ (k = k') := fun hk => h hk.symm
        simp [dictPop, dictGet, h1, h3]
      · by_cases h2 : k1 = k'
        · have h4 : ¬ (k' = k) := h
          simp [dictPop, dictGet, h1, h2, h4]
        · simp [dictPop, dictGet, h1, h2, ih]

theorem popIfNull_of_null {m : List (String × J)} {k : String}
    (h : dictGet m k = some .null) : popIfNull m k = dictPop m k := by
  simp [popIfNull, h]

theorem popIfNull_of_absent {m : List (String × J)} {k : String}
    (h : dictGet m k = none) : popIfNull m k = m := by
  simp [popIfNull, h]

theorem popIfNull_of_nonnull {m : List (String × J)} {k : String} {v : J}
    (h : dictGet m k = some v) (hv : v ≠ .null) : popIfNull m k = m := by
  unfold popIfNull
  rw [h]
  cases v
  · exact absurd rfl hv
  all_goals rfl

theorem dictGet_popIfNull_ne (m : List (String × J)) (k k' : String) (h : k' ≠ k) :
    dictGet (popIfNull m k) k' = dictGet m k' := by
  unfold popIfNull
  rcases hg : dictGet m k with _ | v
  · rfl
  · cases v
    · exact dictGet_dictPop_ne m k k' h
    all_goals rfl

/-- Shorthand for the stripped unwrap result of `processParsed`. -/
def stripTwo (r : List (String × J)) : List (String × J) :=
  popIfNull (popIfNull r "next_token") "failed_regions"

theorem processParsed_unwrap {m inner r : List (String × J)}
    (h1 : dictGet m "content" = some (.obj inner))
    (h2 : dictGet inner "result" = some (.obj r)) :
    processParsed (.obj m) = .obj (stripTwo r) := by
  simp [processParsed, h1, h2, stripTwo]

theorem processParsed_no_content {m : List (String × J)}
    (h : dictGet m "content" = none) : processParsed (.obj m) = .obj m := by
  simp [processParsed, h]

theorem processParsed_content_not_obj {m : List (String × J)} {v : J}
    (h : dictGet m "content" = some v) (hv : ∀ inner, v ≠ .obj inner) :
    processParsed (.obj m) = .obj m := by
  cases v
  case obj inner => exact absurd rfl (hv inner)
  all_goals simp [processParsed, h]

theorem processParsed_result_not_obj {m inner : List (String × J)}
    (h1 : dictGet m "content" = some (.obj inner))
    (h2 : ∀ r, dictGet inner "result" ≠ some (.obj r)) :
    processParsed (.obj m) = .obj m := by
  rcases hg : dictGet inner "result" with _ | v
  · simp [processParsed, h1, hg]
  · cases v
    case obj r => exact absurd hg (h2 r)
    all_goals simp [processParsed, h1, hg]

theorem formatTextBlock_of_loads {s : String} {p : J} (h : loads s = some p) :
    formatTextBlock s = dumps (processParsed p) := by
  simp [formatTextBlock, h]

/-! ### Lemmas on `format_content` -/

theorem collectTexts_eq_filterMap (content : List ContentBlock) :
    collectTexts content = content.filterMap (fun c =>
      match c with
      | .text t => some (formatTextBlock t)
      | _ => none) := by
  induction content with
  | nil => rfl
  | cons c rest ih => cases c <;> simp [collectTexts, ih]

/-! ### Lemmas on the handler skeleton -/

theorem runTool_balanced (env : Env) (errLabel callName : String)
    (args : List (String × J)) : (runTool env errLabel callName args).2.balanced := by
  rcases env with ⟨tf, tm, sf, sm, hf, hm, co⟩
  cases tf <;> cases sf <;> cases hf <;>
    simp [runTool, AWSClientContext.aenter, AWSClientContext.aexit, St.start, St.balanced]

/-! ### Claim theorems -/

/-- C6: `format_content` is a deterministic function of the block sequence
that renders exactly the text-tagged blocks, in input order, joined with a
single newline separator; non-text blocks contribute nothing, and the empty
sequence yields the empty string. -/
theorem format_content_order_preserving :
    (∀ content : List ContentBlock,
        format_content content = String.intercalate "\n" (content.filterMap (fun c =>
          match c with
          | .text t => some (formatTextBlock t)
          | _ => none)))
    ∧ format_content [] = ""
    ∧ (∀ (rest : List ContentBlock) (d m : String),
        format_content (.image d m :: rest) = format_content rest)
    ∧ (∀ (rest : List ContentBlock) (u : String),
        format_content (.resource u :: rest) = format_content rest) := by
  refine ⟨fun content => ?_, rfl, fun rest d m => rfl, fun rest u => rfl⟩
  simp [format_content, collectTexts_eq_filterMap]

/-- C7: the normalizer is a total function into strings (nothing is raised in
the model): a payload that is not valid JSON passes through verbatim, and
non-text block variants are silently omitted. -/
theorem format_content_never_raises :
    (∀ s : String, loads s = none → formatTextBlock s = s)
    ∧ (∀ content : List ContentBlock, ∃ out : String, format_content content = out)
    ∧ (∀ (rest : List ContentBlock) (d m : String),
        format_content (.image d m :: rest) = format_content rest)
    ∧ (∀ (rest : List ContentBlock) (u : String),
        format_content (.resource u :: rest) = format_content rest) := by
  refine ⟨fun s h => ?_, fun content => ⟨_, rfl⟩, fun rest d m => rfl, fun rest u => rfl⟩
  simp [formatTextBlock, h]

/-- C7 witness: a malformed payload is passed through unchanged. -/
theorem format_content_never_raises_witness : formatTextBlock "oops" = "oops" :=
  format_content_never_raises.1 "oops" rfl

/-- C10: an empty-string `filters` is falsy in `if filters:`, so it behaves
exactly like an omitted `filters`: no decoding, no `filters` key. -/
theorem gaArgs_empty_string_like_omitted (resource_type region : String) :
    gaArgs resource_type region (.str "") = gaArgs resource_type region .omitted
    ∧ hasKey (gaArgs resource_type region (.str "")) "filters" = false :=
  ⟨rfl, rfl⟩

/-- C3 counterexample: the caller string `"[]"` is truthy, JSON-decodes to the
empty list, and the handler still sets a `filters` key holding that empty
list — refuting "a filters key appears iff the resulting list is non-empty". -/
theorem gaArgs_empty_json_array_filters_present :
    dictGet (gaArgs "api" "us-east-1" (.str "[]")) "filters" = some (.arr []) := rfl

/-- C3 (amended): `resource_type` and `region` are always present; a string
`filters` is JSON-decoded (a decoded list is used, anything else wraps the
original string as a singleton); a list is used verbatim; and the `filters`
key appears if and only if the caller-supplied value is truthy (non-empty
string or non-empty list) — not iff the normalized list is non-empty. -/
theorem gaArgs_spec (resource_type region : String) (filters : FiltersArg) :
    dictGet (gaArgs resource_type region filters) "resource_type" = some (.str resource_type)
    ∧ dictGet (gaArgs resource_type region filters) "region" = some (.str region)
    ∧ hasKey (gaArgs resource_type region filters) "filters" = filters.truthy
    ∧ (filters.truthy = true →
        dictGet (gaArgs resource_type region filters) "filters" = some (gaFilters filters))
    ∧ (∀ (s : String) (l : List J), loads s = some (.arr l) → gaFilters (.str s) = .arr l)
    ∧ (∀ s : String, (∀ l : List J, loads s ≠ some (.arr l)) →
        gaFilters (.str s) = .arr [.str s])
    ∧ (∀ l : List String, gaFilters (.list l) = .arr (l.map .str))
    ∧ gaFilters (.str "abc") = .arr [.str "abc"]
    ∧ gaFilters (.str "[\"a\",\"b\"]") = .arr [.str "a", .str "b"]
    ∧ hasKey (gaArgs resource_type region (.list [])) "filters" = false
    ∧ hasKey (gaArgs resource_type region .omitted) "filters" = false := by
  refine ⟨?_, ?_, ?_, fun ht => ?_, fun s l h => ?_, fun s h => ?_,
          fun l => rfl, rfl, rfl, rfl, rfl⟩
  · cases hf : filters.truthy <;> simp [gaArgs, hf, dictGet]
  · cases hf : filters.truthy <;> simp [gaArgs, hf, dictGet]
  · cases hf : filters.truthy <;> simp [gaArgs, hf, hasKey, dictGet]
  · simp [gaArgs, ht, dictGet]
  · simp [gaFilters, h]
  · rcases hg : loads s with _ | v
    · simp [gaFilters, hg]
    · cases v
      case arr l => exact absurd hg (h l)
      all_goals simp [gaFilters, hg]

/-- C3 witness: on a truthy string input the normalized filters land in the
call arguments. -/
theorem gaArgs_spec_witness :
    dictGet (gaArgs "api" "us-east-1" (.str "abc")) "filters" = some (.arr [.str "abc"]) :=
  (gaArgs_spec "api" "us-east-1" (.str "abc")).2.2.2.1 rfl

/-- C1 counterexample: with a failing transport connect, every one of the
five handlers lets the raised `McpError` (the `Except.error` branch, message
`Connection Error: boom`) propagate to the dispatcher instead of returning an
in-band error string. -/
theorem handlers_raise_on_connection_failure :
    (search_documentation envConnFail "q" none).1
      = .error ⟨INTERNAL_ERROR, "Connection Error: boom"⟩
    ∧ (read_documentation envConnFail "u" none none).1
      = .error ⟨INTERNAL_ERROR, "Connection Error: boom"⟩
    ∧ (recommend envConnFail "u").1 = .error ⟨INTERNAL_ERROR, "Connection Error: boom"⟩
    ∧ (list_regions envConnFail).1 = .error ⟨INTERNAL_ERROR, "Connection Error: boom"⟩
    ∧ (get_regional_availability envConnFail "api" "us-east-1" .omitted).1
      = .error ⟨INTERNAL_ERROR, "Connection Error: boom"⟩ :=
  ⟨rfl, rfl, rfl, rfl, rfl⟩

/-- C1 (amended): failures raised by the upstream call are caught and
returned in-band as `errLabel ++ msg`, and with a successful acquisition the
dispatcher never observes a raised failure; but a failure in any acquisition
step (transport connect, session entry, handshake) propagates to the
dispatcher as a raised connection error. -/
theorem runTool_error_containment (env : Env) (errLabel callName : String)
    (args : List (String × J)) :
    (env.transportFails = false → env.sessionFails = false → env.initFails = false →
      (runTool env errLabel callName args).1
        = .ok (match env.callOutcome callName args with
               | .ok content => format_content content
               | .error msg => errLabel ++ msg))
    ∧ (env.transportFails = true →
        (runTool env errLabel callName args).1
          = .error ⟨INTERNAL_ERROR, "Connection Error: " ++ env.transportMsg⟩)
    ∧ (env.transportFails = false → env.sessionFails = true →
        (runTool env errLabel callName args).1
          = .error ⟨INTERNAL_ERROR, "Connection Error: " ++ env.sessionMsg⟩)
    ∧ (env.transportFails = false → env.sessionFails = false → env.initFails = true →
        (runTool env errLabel callName args).1
          = .error ⟨INTERNAL_ERROR, "Connection Error: " ++ env.initMsg⟩) := by
  refine ⟨fun h1 h2 h3 => ?_, fun h1 => ?_, fun h1 h2 => ?_, fun h1 h2 h3 => ?_⟩
  · cases hc : env.callOutcome callName args <;>
      simp [runTool, AWSClientContext.aenter, h1, h2, h3, hc]
  · simp [runTool, AWSClientContext.aenter, h1]
  · simp [runTool, AWSClientContext.aenter, h1, h2]
  · simp [runTool, AWSClientContext.aenter, h1, h2, h3]

/-- C1 witness: a failing upstream call comes back as the labelled error
string, not as a raised failure. -/
theorem runTool_error_containment_witness :
    (runTool
        { transportFails := false, transportMsg := "", sessionFails := false, sessionMsg := "",
          initFails := false, initMsg := "", callOutcome := fun _ _ => .error "down" }
        "Error listing regions: " "aws___list_regions" []).1
      = .ok "Error listing regions: down" :=
  (runTool_error_containment _ "Error listing regions: " "aws___list_regions" []).1 rfl rfl rfl

/-- C4: for every invocation of each of the five exposed tools, the
connection scope's release runs exactly once before the invocation returns
and every opened resource is closed, on every exit path (success, upstream
call failure, and each acquisition failure). -/
theorem connection_scope_release_balanced (env : Env) :
    (∀ (q : String) (t : Option (List String)), (search_documentation env q t).2.balanced)
    ∧ (∀ (u : String) (si ml : Option Int), (read_documentation env u si ml).2.balanced)
    ∧ (∀ u : String, (recommend env u).2.balanced)
    ∧ (list_regions env).2.balanced
    ∧ (∀ (rt r : String) (f : FiltersArg), (get_regional_availability env rt r f).2.balanced) :=
  ⟨fun q t => runTool_balanced env _ _ _, fun u si ml => runTool_balanced env _ _ _,
   fun u => runTool_balanced env _ _ _, runTool_balanced env _ _ _,
   fun rt r f => runTool_balanced env _ _ _⟩

/-- C2 counterexample: a payload that parses to a JSON object carrying no
envelope keeps its null-valued `next_token` in the rendered output, refuting
the claim that null stripping happens for every parsed object. -/
theorem nulls_kept_without_envelope :
    loads "\x7b\"next_token\": null, \"failed_regions\": [\"x\"]\x7d"
      = some (.obj [("next_token", .null), ("failed_regions", .arr [.str "x"])])
    ∧ formatTextBlock "\x7b\"next_token\": null, \"failed_regions\": [\"x\"]\x7d"
      = "\x7b\n  \"next_token\": null,\n  \"failed_regions\": [\n    \"x\"\n  ]\n\x7d"
    ∧ ("\x7b\n  \"next_token\": null,\n  \"failed_regions\": [\n    \"x\"\n  ]\n\x7d"
        = "\x7b\n  \"failed_regions\": [\n    \"x\"\n  ]\n\x7d" → False) := by
  refine ⟨rfl, rfl, fun h => ?_⟩
  exact absurd h (by decide)

/-- C2 (amended): the null stripping of `next_token` and `failed_regions`
applies exactly to the object obtained through a successful envelope unwrap:
there a key is dropped iff its value is null and kept with any non-null
value; an object without the envelope is rendered unchanged, keeping even
null-valued `next_token` / `failed_regions`. -/
theorem null_stripping_only_after_unwrap :
    (∀ (m inner r : List (String × J)),
        dictGet m "content" = some (.obj inner) →
        dictGet inner "result" = some (.obj r) →
        processParsed (.obj m) = .obj (stripTwo r))
    ∧ (∀ m : List (String × J), dictGet m "content" = none → processParsed (.obj m) = .obj m)
    ∧ (∀ (r : List (String × J)) (k : String),
        (dictGet r k = some .null → popIfNull r k = dictPop r k)
        ∧ (dictGet r k = none → popIfNull r k = r)
        ∧ (∀ v : J, dictGet r k = some v → v ≠ .null → popIfNull r k = r))
    ∧ formatTextBlock
        "\x7b\"content\": \x7b\"result\": \x7b\"next_token\": null, \"failed_regions\": [\"x\"]\x7d\x7d\x7d"
      = "\x7b\n  \"failed_regions\": [\n    \"x\"\n  ]\n\x7d" :=
  ⟨fun m inner r h1 h2 => processParsed_unwrap h1 h2,
   fun m h => processParsed_no_content h,
   fun r k => ⟨fun h => popIfNull_of_null h, fun h => popIfNull_of_absent h,
               fun v h hv => popIfNull_of_nonnull h hv⟩,
   rfl⟩

/-- C2 witness: the stripping theorem applied to a concrete enveloped object
with a null `next_token` and a kept key. -/
theorem null_stripping_only_after_unwrap_witness :
    processParsed
        (.obj [("content", .obj [("result", .obj [("next_token", .null), ("a", .num 1)])])])
      = .obj (stripTwo [("next_token", .null), ("a", .num 1)])
    ∧ stripTwo [("next_token", .null), ("a", .num 1)] = [("a", .num 1)] :=
  ⟨null_stripping_only_after_unwrap.1 _ _ _ rfl rfl, rfl⟩

/-- C5: the envelope unwrap replaces the working object with the nested
`result` object (then null-stripped) if and only if `content` holds an
object whose `result` holds an object; in every other shape the original
object is rendered unchanged; with the claim's two concrete examples. -/
theorem envelope_unwrap_spec :
    (∀ (m inner r : List (String × J)),
        dictGet m "content" = some (.obj inner) →
        dictGet inner "result" = some (.obj r) →
        processParsed (.obj m) = .obj (stripTwo r))
    ∧ (∀ m : List (String × J), dictGet m "content" = none → processParsed (.obj m) = .obj m)
    ∧ (∀ (m : List (String × J)) (v : J), dictGet m "content" = some v →
        (∀ inner, v ≠ .obj inner) → processParsed (.obj m) = .obj m)
    ∧ (∀ (m inner : List (String × J)), dictGet m "content" = some (.obj inner) →
        (∀ r, dictGet inner "result" ≠ some (.obj r)) → processParsed (.obj m) = .obj m)
    ∧ formatTextBlock "\x7b\"content\": \x7b\"result\": \x7b\"a\": 1\x7d\x7d\x7d"
        = "\x7b\n  \"a\": 1\n\x7d"
    ∧ formatTextBlock "\x7b\"content\": \x7b\"result\": \"not-an-object\"\x7d\x7d"
        = "\x7b\n  \"content\": \x7b\n    \"result\": \"not-an-object\"\n  \x7d\n\x7d" :=
  ⟨fun m inner r h1 h2 => processParsed_unwrap h1 h2,
   fun m h => processParsed_no_content h,
   fun m v h hv => processParsed_content_not_obj h hv,
   fun m inner h1 h2 => processParsed_result_not_obj h1 h2,
   rfl, rfl⟩

/-- C5 witness: the unwrap theorem applied to a concrete enveloped object. -/
theorem envelope_unwrap_spec_witness :
    processParsed (.obj [("content", .obj [("result", .obj [("a", .num 1)])])])
      = .obj (stripTwo [("a", .num 1)])
    ∧ stripTwo [("a", .num 1)] = [("a", .num 1)] :=
  ⟨envelope_unwrap_spec.1 _ _ _ rfl rfl, rfl⟩

/-- C9: the envelope unwrap applies at most once: when the unwrapped `result`
object itself carries an inner `content`/`result` envelope, that inner
envelope survives intact (its `content` entry is untouched by the null
stripping, which only affects `next_token` and `failed_regions`). -/
theorem envelope_unwrap_not_recursive (r ri rr : List (String × J))
    (h1 : dictGet r "content" = some (.obj ri))
    (h2 : dictGet ri "result" = some (.obj rr)) :
    processParsed (.obj [("content", .obj [("result", .obj r)])]) = .obj (stripTwo r)
    ∧ dictGet (stripTwo r) "content" = some (.obj ri) := by
  constructor
  · exact processParsed_unwrap rfl rfl
  · unfold stripTwo
    rw [dictGet_popIfNull_ne _ _ _ (by decide), dictGet_popIfNull_ne _ _ _ (by decide)]
    exact h1

/-! ### Round-trip, step 1: decimal digits and integer literals -/

theorem decCh_spec : ∀ d < 10, isDigitCh (decCh d) = true
    ∧ (decCh d).toNat - '0'.toNat = d ∧ (d ≠ 0 → decCh d ≠ '0') := by decide

theorem natCharsAux_spec :
    ∀ (n fuel : Nat) (acc : List Char), n < fuel →
      natCharsAux fuel n acc = natChars n ++ acc := by
  intro n
  induction n using Nat.strong_induction_on with
  | _ n ih =>
      intro fuel acc hf
      match fuel with
      | 0 => omega
      | f + 1 =>
          by_cases h10 : n < 10
          · simp [natCharsAux, natChars, h10]
          · simp only [natCharsAux, if_neg h10, natChars]
            rw [ih (n / 10) (by omega) f _ (by omega),
                ih (n / 10) (by omega) n _ (by omega)]
            simp

theorem natChars_unfold_small {n : Nat} (h : n < 10) : natChars n = [decCh n] := by
  simp [natChars, natCharsAux, h]

theorem natChars_unfold_big {n : Nat} (h : 10 ≤ n) :
    natChars n = natChars (n / 10) ++ [decCh (n % 10)] := by
  have h1 : ¬ n < 10 := by omega
  simp only [natChars, natCharsAux, if_neg h1]
  exact natCharsAux_spec (n / 10) n _ (by omega)

theorem natChars_digits (n : Nat) : ∀ c ∈ natChars n, isDigitCh c = true := by
  induction n using Nat.strong_induction_on with
  | _ n ih =>
      intro c hc
      by_cases h10 : n < 10
      · rw [natChars_unfold_small h10] at hc
        rw [List.mem_singleton] at hc
        subst hc
        exact (decCh_spec n h10).1
      · rw [natChars_unfold_big (by omega)] at hc
        rw [List.mem_append] at hc
        cases hc with
        | inl h => exact ih (n / 10) (by omega) c h
        | inr h =>
            rw [List.mem_singleton] at h
            subst h
            exact (decCh_spec (n % 10) (by omega)).1

theorem natChars_cons (n : Nat) :
    ∃ c t, natChars n = c :: t ∧ isDigitCh c = true ∧ (n ≠ 0 → c ≠ '0') := by
  induction n using Nat.strong_induction_on with
  | _ n ih =>
      by_cases h10 : n < 10
      · refine ⟨decCh n, [], natChars_unfold_small h10, (decCh_spec n h10).1,
          fun hn => (decCh_spec n h10).2.2 hn⟩
      · obtain ⟨c, t, hct, hd, hz⟩ := ih (n / 10) (by omega)
        refine ⟨c, t ++ [decCh (n % 10)], ?_, hd, fun _ => hz (by omega)⟩
        rw [natChars_unfold_big (by omega), hct]
        simp

theorem digitsVal_append_one (ds : List Char) (c : Char) :
    digitsVal (ds ++ [c]) = digitsVal ds * 10 + (c.toNat - '0'.toNat) := by
  simp [digitsVal, List.foldl_append]

theorem digitsVal_natChars (n : Nat) : digitsVal (natChars n) = n := by
  induction n using Nat.strong_induction_on with
  | _ n ih =>
      by_cases h10 : n < 10
      · rw [natChars_unfold_small h10]
        have h1 := (decCh_spec n h10).2.1
        simp only [digitsVal, List.foldl_cons, List.foldl_nil, Nat.zero_mul, Nat.zero_add]
        omega
      · rw [natChars_unfold_big (by omega), digitsVal_append_one,
            ih (n / 10) (by omega), (decCh_spec (n % 10) (by omega)).2.1]
        omega

theorem numStop_head {c : Char} {t : List Char} (h : numStop (c :: t) = true) :
    isDigitCh c = false ∧ c ≠ '.' ∧ c ≠ 'e' ∧ c ≠ 'E' := by
  simp only [numStop, Bool.not_eq_true', Bool.or_eq_false_iff,
    decide_eq_false_iff_not] at h
  exact ⟨h.1.1.1, h.1.1.2, h.1.2, h.2⟩

theorem takeDigitsRun_stop {cs : List Char} (h : numStop cs = true) :
    takeDigitsRun cs = ([], cs) := by
  match cs with
  | [] => rfl
  | c :: t => simp [takeDigitsRun, (numStop_head h).1]

theorem takeDigitsRun_append (ds : List Char) (hds : ∀ c ∈ ds, isDigitCh c = true)
    (rest : List Char) (hrest : takeDigitsRun rest = ([], rest)) :
    takeDigitsRun (ds ++ rest) = (ds, rest) := by
  induction ds with
  | nil => simpa using hrest
  | cons c t ih =>
      have hc : isDigitCh c = true := hds c (by simp)
      have ht := ih (fun x hx => hds x (by simp [hx]))
      simp [takeDigitsRun, hc, ht]

theorem digit_facts {c : Char} (h : isDigitCh c = true) :
    c ≠ '-' ∧ c ≠ '+' ∧ c ≠ '.' ∧ c ≠ 'e' ∧ c ≠ 'E' ∧ isWsCh c = false
      ∧ c ≠ ']' ∧ c ≠ '\x7d' ∧ c ≠ 'n' ∧ c ≠ 't' ∧ c ≠ 'f' ∧ c ≠ '"'
      ∧ c ≠ '[' ∧ c ≠ '\x7b' := by
  have hq : ∀ x : Char, isDigitCh x = false → c ≠ x := by
    intro x hx e
    subst e
    rw [h] at hx
    exact Bool.noConfusion hx
  refine ⟨hq '-' (by decide), hq '+' (by decide), hq '.' (by decide), hq 'e' (by decide),
          hq 'E' (by decide), ?_, hq ']' (by decide), hq '\x7d' (by decide),
          hq 'n' (by decide), hq 't' (by decide), hq 'f' (by decide), hq '"' (by decide),
          hq '[' (by decide), hq '\x7b' (by decide)⟩
  simp [isWsCh, hq ' ' (by decide), hq '\t' (by decide), hq '\n' (by decide),
        hq '\x0d' (by decide)]

theorem parseIntDigits_natChars (n : Nat) (rest : List Char) (hr : numStop rest = true) :
    parseIntDigits (natChars n ++ rest) = some (n, rest) := by
  by_cases h0 : n = 0
  · subst h0
    have h1 : natChars 0 = ['0'] := by decide
    rw [h1]
    simp [parseIntDigits]
  · obtain ⟨c, t, hct, hd, hz⟩ := natChars_cons n
    have hz' := hz h0
    have hdall : ∀ x ∈ t, isDigitCh x = true := by
      intro x hx
      exact natChars_digits n x (by rw [hct]; simp [hx])
    have htk : takeDigitsRun (t ++ rest) = (t, rest) :=
      takeDigitsRun_append t hdall rest (takeDigitsRun_stop hr)
    have hdv : digitsVal (c :: t) = n := by
      have := digitsVal_natChars n
      rwa [hct] at this
    rw [hct, List.cons_append]
    simp [parseIntDigits, hz', hd, htk, hdv]

theorem floatFollows_of_numStop {rest : List Char} (hr : numStop rest = true) :
    floatFollows rest = false := by
  match rest, hr with
  | [], _ => rfl
  | c :: t, hr =>
      obtain ⟨_, hdot, he, hE⟩ := numStop_head hr
      simp [floatFollows, hdot, he, hE]

theorem parseNumber_cons_ne {c : Char} {t : List Char} (hc : c ≠ '-') :
    parseNumber (c :: t) = finishNumber false (parseIntDigits (c :: t)) := by
  unfold parseNumber
  split
  · rename_i r heq
    injection heq with h1 _
    exact absurd h1 hc
  · rfl

theorem parseNumber_intChars (i : Int) (rest : List Char) (hr : numStop rest = true) :
    parseNumber (intChars i ++ rest) = some (i, rest) := by
  have hstop : ∀ m : Nat, parseIntDigits (natChars m ++ rest) = some (m, rest) :=
    fun m => parseIntDigits_natChars m rest hr
  have hff := floatFollows_of_numStop hr
  by_cases hneg : i < 0
  · have harg : intChars i ++ rest = '-' :: (natChars i.natAbs ++ rest) := by
      simp [intChars, hneg]
    rw [harg]
    have hstep : parseNumber ('-' :: (natChars i.natAbs ++ rest))
        = finishNumber true (parseIntDigits (natChars i.natAbs ++ rest)) := rfl
    rw [hstep, hstop i.natAbs]
    have habs : (i.natAbs : Int) = -i := Int.ofNat_natAbs_of_nonpos (by omega)
    simp [finishNumber, hff, habs]
  · obtain ⟨c, t, hct, hd, _⟩ := natChars_cons i.natAbs
    obtain ⟨hm, _⟩ := digit_facts hd
    have harg : intChars i ++ rest = c :: (t ++ rest) := by
      simp [intChars, hneg, hct]
    rw [harg, parseNumber_cons_ne hm]
    have hpi : parseIntDigits (c :: (t ++ rest)) = some (i.natAbs, rest) := by
      have := hstop i.natAbs
      rwa [hct, List.cons_append] at this
    rw [hpi]
    have habs : (i.natAbs : Int) = i := Int.natAbs_of_nonneg (by omega)
    simp [finishNumber, hff, habs]

/-! ### Round-trip, step 2: string escaping -/

theorem char_toNat_valid (c : Char) :
    c.toNat < 0xd800 ∨ (0xdfff < c.toNat ∧ c.toNat < 0x110000) := c.valid

theorem hexVal_hexCh : ∀ d < 16, hexVal (hexCh d) = some d := by decide

theorem hex4Val_hexCh (n : Nat) (h : n < 0x10000) :
    hex4Val (hexCh (n / 4096 % 16)) (hexCh (n / 256 % 16)) (hexCh (n / 16 % 16))
      (hexCh (n % 16)) = some n := by
  have h1 := hexVal_hexCh (n / 4096 % 16) (Nat.mod_lt _ (by omega))
  have h2 := hexVal_hexCh (n / 256 % 16) (Nat.mod_lt _ (by omega))
  have h3 := hexVal_hexCh (n / 16 % 16) (Nat.mod_lt _ (by omega))
  have h4 := hexVal_hexCh (n % 16) (Nat.mod_lt _ (by omega))
  simp only [hex4Val, h1, h2, h3, h4]
  congr 1
  omega

theorem escChar_length_pos (c : Char) : 1 ≤ (escChar c).length := by
  by_cases h1 : c = '"'
  · simp [escChar, h1]
  by_cases h2 : c = '\\'
  · simp [escChar, h1, h2]
  by_cases h3 : c = '\x08'
  · simp [escChar, h1, h2, h3]
  by_cases h4 : c = '\t'
  · simp [escChar, h1, h2, h3, h4]
  by_cases h5 : c = '\n'
  · simp [escChar, h1, h2, h3, h4, h5]
  by_cases h6 : c = '\x0c'
  · simp [escChar, h1, h2, h3, h4, h5, h6]
  by_cases h7 : c = '\x0d'
  · simp [escChar, h1, h2, h3, h4, h5, h6, h7]
  simp only [escChar, if_neg h1, if_neg h2, if_neg h3, if_neg h4, if_neg h5, if_neg h6,
    if_neg h7]
  by_cases h8 : c.toNat < 0x20
  · simp [h8, hex4Chars]
  by_cases h9 : c.toNat ≤ 0x7e
  · simp [h8, h9]
  by_cases h10 : c.toNat < 0x10000
  · simp [h8, h9, h10, hex4Chars]
  · simp [h8, h9, h10, hex4Chars]

theorem parseStrBody_quote (f : Nat) (acc rest : List Char) :
    parseStrBody (f + 1) acc ('"' :: rest) = some (String.mk acc.reverse, rest) := by
  simp [parseStrBody]

theorem parseStrBody_plain {c : Char} (h1 : ¬ c = '"') (h2 : ¬ c = '\\')
    (h3 : ¬ c.toNat < 0x20) (f : Nat) (acc rest : List Char) :
    parseStrBody (f + 1) acc (c :: rest) = parseStrBody f (c :: acc) rest := by
  simp only [parseStrBody]
  rw [if_neg h1, if_neg h2, if_neg h3]

theorem parseStrBody_uescape (f : Nat) (acc rest : List Char) (w1 w2 w3 w4 : Char) (n : Nat)
    (hv : hex4Val w1 w2 w3 w4 = some n)
    (hn1 : ¬ (0xd800 ≤ n ∧ n ≤ 0xdbff)) (hn2 : ¬ (0xdc00 ≤ n ∧ n ≤ 0xdfff)) :
    parseStrBody (f + 1) acc ('\\' :: 'u' :: w1 :: w2 :: w3 :: w4 :: rest)
      = parseStrBody f (Char.ofNat n :: acc) rest := by
  simp only [parseStrBody]
  simp [hv, hn1, hn2]

theorem parseStrBody_surrogate (f : Nat) (acc rest : List Char)
    (w1 w2 w3 w4 x1 x2 x3 x4 : Char) (n n2 : Nat)
    (hv1 : hex4Val w1 w2 w3 w4 = some n) (hv2 : hex4Val x1 x2 x3 x4 = some n2)
    (hs1 : 0xd800 ≤ n ∧ n ≤ 0xdbff) (hs2 : 0xdc00 ≤ n2 ∧ n2 ≤ 0xdfff) :
    parseStrBody (f + 1) acc
        ('\\' :: 'u' :: w1 :: w2 :: w3 :: w4 :: '\\' :: 'u' :: x1 :: x2 :: x3 :: x4 :: rest)
      = parseStrBody f (Char.ofNat (0x10000 + (n - 0xd800) * 0x400 + (n2 - 0xdc00)) :: acc)
          rest := by
  simp only [parseStrBody]
  simp [hv1, hv2, hs1, hs2]

theorem parseStrBody_escChar (c : Char) (f : Nat) (acc rest : List Char) :
    parseStrBody (f + 1) acc (escChar c ++ rest) = parseStrBody f (c :: acc) rest := by
  by_cases h1 : c = '"'
  · subst h1; simp [escChar, parseStrBody, shortEsc]
  by_cases h2 : c = '\\'
  · subst h2; simp [escChar, parseStrBody, shortEsc]
  by_cases h3 : c = '\x08'
  · subst h3; simp [escChar, parseStrBody, shortEsc]
  by_cases h4 : c = '\t'
  · subst h4; simp [escChar, parseStrBody, shortEsc]
  by_cases h5 : c = '\n'
  · subst h5; simp [escChar, parseStrBody, shortEsc]
  by_cases h6 : c = '\x0c'
  · subst h6; simp [escChar, parseStrBody, shortEsc]
  by_cases h7 : c = '\x0d'
  · subst h7; simp [escChar, parseStrBody, shortEsc]
  simp only [escChar, if_neg h1, if_neg h2, if_neg h3, if_neg h4, if_neg h5, if_neg h6,
    if_neg h7]
  by_cases h8 : c.toNat < 0x20
  · have hv := hex4Val_hexCh c.toNat (by omega)
    have hno1 : ¬ (0xd800 ≤ c.toNat ∧ c.toNat ≤ 0xdbff) := by omega
    have hno2 : ¬ (0xdc00 ≤ c.toNat ∧ c.toNat ≤ 0xdfff) := by omega
    rw [if_pos h8]
    simp only [hex4Chars, List.cons_append, List.nil_append]
    rw [parseStrBody_uescape f acc rest _ _ _ _ c.toNat hv hno1 hno2, Char.ofNat_toNat]
  · by_cases h9 : c.toNat ≤ 0x7e
    · rw [if_neg h8, if_pos h9]
      simp only [List.cons_append, List.nil_append]
      exact parseStrBody_plain h1 h2 h8 f acc rest
    · by_cases h10 : c.toNat < 0x10000
      · have hval := char_toNat_valid c
        have hv := hex4Val_hexCh c.toNat h10
        have hno1 : ¬ (0xd800 ≤ c.toNat ∧ c.toNat ≤ 0xdbff) := by omega
        have hno2 : ¬ (0xdc00 ≤ c.toNat ∧ c.toNat ≤ 0xdfff) := by omega
        rw [if_neg h8, if_neg h9, if_pos h10]
        simp only [hex4Chars, List.cons_append, List.nil_append]
        rw [parseStrBody_uescape f acc rest _ _ _ _ c.toNat hv hno1 hno2, Char.ofNat_toNat]
      · have hval := char_toNat_valid c
        have hv1 := hex4Val_hexCh (0xd800 + (c.toNat - 0x10000) / 0x400) (by omega)
        have hv2 := hex4Val_hexCh (0xdc00 + (c.toNat - 0x10000) % 0x400) (by omega)
        have hdivle : (c.toNat - 0x10000) / 0x400 ≤ 0x3ff := by omega
        have hmodle : (c.toNat - 0x10000) % 0x400 ≤ 0x3ff := by omega
        have hyes1 : 0xd800 ≤ 0xd800 + (c.toNat - 0x10000) / 0x400
            ∧ 0xd800 + (c.toNat - 0x10000) / 0x400 ≤ 0xdbff := by omega
        have hyes2 : 0xdc00 ≤ 0xdc00 + (c.toNat - 0x10000) % 0x400
            ∧ 0xdc00 + (c.toNat - 0x10000) % 0x400 ≤ 0xdfff := by omega
        rw [if_neg h8, if_neg h9, if_neg h10]
        simp only [hex4Chars, List.cons_append, List.append_assoc, List.nil_append]
        rw [parseStrBody_surrogate f acc rest _ _ _ _ _ _ _ _ _ _ hv1 hv2 hyes1 hyes2]
        rw [show 0x10000 + (0xd800 + (c.toNat - 0x10000) / 0x400 - 0xd800) * 0x400
            + (0xdc00 + (c.toNat - 0x10000) % 0x400 - 0xdc00) = c.toNat from by omega,
          Char.ofNat_toNat]

theorem parseStrBody_flatMap (cs : List Char) : ∀ (f : Nat) (acc rest : List Char),
    cs.length < f →
    parseStrBody f acc (cs.flatMap escChar ++ ('"' :: rest))
      = some (String.mk (acc.reverse ++ cs), rest) := by
  induction cs with
  | nil =>
      intro f acc rest hf
      match f, hf with
      | f + 1, _ =>
          rw [List.flatMap_nil, List.nil_append, parseStrBody_quote]
          simp
  | cons c cs ih =>
      intro f acc rest hf
      match f, hf with
      | f + 1, hf =>
          rw [List.flatMap_cons, List.append_assoc, parseStrBody_escChar,
            ih f _ _ (by simp at hf; omega)]
          simp

theorem length_le_flatMap_escChar (cs : List Char) :
    cs.length ≤ (cs.flatMap escChar).length := by
  induction cs with
  | nil => simp
  | cons c cs ih =>
      have := escChar_length_pos c
      simp only [List.flatMap_cons, List.length_append, List.length_cons]
      omega

theorem parseStr_strChars (s : String) (rest : List Char) :
    parseStr (s.data.flatMap escChar ++ ('"' :: rest)) = some (s, rest) := by
  unfold parseStr
  rw [parseStrBody_flatMap]
  · obtain ⟨d⟩ := s
    simp
  · have := length_le_flatMap_escChar s.data
    simp only [List.length_append, List.length_cons]
    omega

/-! ### Round-trip, step 3: whitespace, rendered heads, and dict rebuilding -/

theorem skipWs_append_ws {l : List Char} (hl : ∀ c ∈ l, isWsCh c = true) (x : List Char) :
    skipWs (l ++ x) = skipWs x := by
  induction l with
  | nil => rfl
  | cons c t ih =>
      have hc := hl c (by simp)
      simp [skipWs, hc, ih (fun d hd => hl d (by simp [hd]))]

theorem skipWs_cons_not {c : Char} (hc : isWsCh c = false) (x : List Char) :
    skipWs (c :: x) = c :: x := by
  simp [skipWs, hc]

theorem skipWs_cons_ws {c : Char} (hc : isWsCh c = true) (x : List Char) :
    skipWs (c :: x) = skipWs x := by
  simp [skipWs, hc]

theorem indentChars_ws (d : Nat) : ∀ c ∈ indentChars d, isWsCh c = true := by
  intro c hc
  have : c = ' ' := (List.mem_replicate.mp hc).2
  subst this
  decide

theorem dumpVal_head (d : Nat) (j : J) :
    ∃ c t, dumpVal d j = c :: t ∧ isWsCh c = false ∧ c ≠ ']' ∧ c ≠ '\x7d' := by
  cases j with
  | null => exact ⟨'n', _, rfl, by decide, by decide, by decide⟩
  | bool b =>
      cases b with
      | false => exact ⟨'f', _, rfl, by decide, by decide, by decide⟩
      | true => exact ⟨'t', _, rfl, by decide, by decide, by decide⟩
  | num i =>
      by_cases hneg : i < 0
      · refine ⟨'-', natChars i.natAbs, ?_, by decide, by decide, by decide⟩
        simp [dumpVal, intChars, hneg]
      · obtain ⟨c, t, hct, hd, _⟩ := natChars_cons i.natAbs
        obtain ⟨_, _, _, _, _, hws, hrb, hrc, _⟩ := digit_facts hd
        refine ⟨c, t, ?_, hws, hrb, hrc⟩
        simp [dumpVal, intChars, hneg, hct]
  | str s =>
      refine ⟨'"', s.data.flatMap escChar ++ ['"'], ?_, by decide, by decide, by decide⟩
      simp [dumpVal, strChars]
  | arr items =>
      cases items with
      | nil => exact ⟨'[', _, rfl, by decide, by decide, by decide⟩
      | cons x xs => exact ⟨'[', _, rfl, by decide, by decide, by decide⟩
  | obj members =>
      cases members with
      | nil => exact ⟨'\x7b', _, rfl, by decide, by decide, by decide⟩
      | cons kv kvs => exact ⟨'\x7b', _, rfl, by decide, by decide, by decide⟩

theorem dumpVal_length_pos (d : Nat) (j : J) : 1 ≤ (dumpVal d j).length := by
  obtain ⟨c, t, h, _, _, _⟩ := dumpVal_head d j
  simp [h]

theorem skipWs_dumpVal (d : Nat) (j : J) (x : List Char) :
    skipWs (dumpVal d j ++ x) = dumpVal d j ++ x := by
  obtain ⟨c, t, h, hws, _, _⟩ := dumpVal_head d j
  rw [h, List.cons_append, skipWs_cons_not hws]

theorem hasKey_cons_false {k0 : String} {v0 : J} {rest : List (String × J)} {k : String}
    (h : hasKey ((k0, v0) :: rest) k = false) :
    ¬ (k0 = k) ∧ hasKey rest k = false := by
  by_cases hk : k0 = k
  · exfalso
    simp [hasKey, dictGet, hk] at h
  · exact ⟨hk, by simpa [hasKey, dictGet, hk] using h⟩

theorem hasKey_mem_ne {m : List (String × J)} {k : String} (h : hasKey m k = false) :
    ∀ kv ∈ m, kv.1 ≠ k := by
  induction m with
  | nil => simp
  | cons kv0 rest ih =>
      obtain ⟨k0, v0⟩ := kv0
      obtain ⟨hk0, hrest⟩ := hasKey_cons_false h
      intro kv hkv
      rcases List.mem_cons.mp hkv with rfl | hkv2
      · exact hk0
      · exact ih hrest kv hkv2

theorem hasKey_append {m1 m2 : List (String × J)} {k : String} :
    hasKey (m1 ++ m2) k = (hasKey m1 k || hasKey m2 k) := by
  induction m1 with
  | nil => simp [hasKey, dictGet]
  | cons kv rest ih =>
      obtain ⟨k0, v0⟩ := kv
      by_cases hk : k0 = k <;> simp [hasKey, dictGet, hk] <;> exact ih

theorem pyInsert_append {m : List (String × J)} {k : String} {v : J}
    (h : hasKey m k = false) : pyInsert m k v = m ++ [(k, v)] := by
  induction m with
  | nil => rfl
  | cons kv rest ih =>
      obtain ⟨k0, v0⟩ := kv
      obtain ⟨hk0, hrest⟩ := hasKey_cons_false h
      have hk0' : ¬ (k0 = k) := hk0
      simp [pyInsert, hk0', ih hrest]

theorem wfMembers_cons {k : String} {v : J} {rest : List (String × J)}
    (h : wfMembers ((k, v) :: rest) = true) :
    hasKey rest k = false ∧ wfVal v = true ∧ wfMembers rest = true := by
  simpa [wfMembers, Bool.and_eq_true, Bool.not_eq_true', and_assoc] using h

theorem wfItems_cons {x : J} {xs : List J} (h : wfItems (x :: xs) = true) :
    wfVal x = true ∧ wfItems xs = true := by
  simpa [wfItems, Bool.and_eq_true] using h

theorem foldl_pyInsert_append : ∀ (ms acc : List (String × J)),
    (∀ kv ∈ ms, hasKey acc kv.1 = false) → wfMembers ms = true →
    List.foldl (fun a kv => pyInsert a kv.1 kv.2) acc ms = acc ++ ms := by
  intro ms
  induction ms with
  | nil =>
      intro acc _ _
      simp
  | cons kv rest ih =>
      intro acc hacc hwf
      obtain ⟨k, v⟩ := kv
      obtain ⟨hkrest, _, hwfrest⟩ := wfMembers_cons hwf
      simp only [List.foldl_cons]
      rw [pyInsert_append (hacc (k, v) (by simp))]
      rw [ih (acc ++ [(k, v)]) ?_ hwfrest]
      · simp
      · intro kv2 hkv2
        rw [hasKey_append]
        have h1 : hasKey acc kv2.1 = false := hacc kv2 (by simp [hkv2])
        have hne : kv2.1 ≠ k := hasKey_mem_ne hkrest kv2 hkv2
        have hne2 : ¬ (k = kv2.1) := fun e => hne e.symm
        have h2 : hasKey [(k, v)] kv2.1 = false := by
          simp [hasKey, dictGet, hne2]
        simp [h1, h2]

theorem mkDict_self {ms : List (String × J)} (h : wfMembers ms = true) : mkDict ms = ms := by
  unfold mkDict
  rw [foldl_pyInsert_append ms [] (fun kv _ => rfl) h]
  simp

/-! ### Round-trip, step 4: parser bridges at a rendered head -/

theorem dumpVal_null (d : Nat) : dumpVal d .null = ['n', 'u', 'l', 'l'] := by
  simp [dumpVal]

theorem dumpVal_true (d : Nat) : dumpVal d (.bool true) = ['t', 'r', 'u', 'e'] := by
  simp [dumpVal]

theorem dumpVal_false (d : Nat) : dumpVal d (.bool false) = ['f', 'a', 'l', 's', 'e'] := by
  simp [dumpVal]

theorem dumpVal_num (d : Nat) (i : Int) : dumpVal d (.num i) = intChars i := by
  simp [dumpVal]

theorem dumpVal_str (d : Nat) (s : String) : dumpVal d (.str s) = strChars s := by
  simp [dumpVal]

theorem dumpVal_arr_nil (d : Nat) : dumpVal d (.arr []) = ['[', ']'] := by
  simp [dumpVal]

theorem dumpVal_arr_cons (d : Nat) (x : J) (xs : List J) :
    dumpVal d (.arr (x :: xs))
      = '[' :: '\n' :: (indentChars (d + 1) ++ (dumpVal (d + 1) x ++ dumpItemSep (d + 1) xs
          ++ '\n' :: (indentChars d ++ [']']))) := by
  simp [dumpVal]

theorem dumpVal_obj_nil (d : Nat) : dumpVal d (.obj []) = ['\x7b', '\x7d'] := by
  simp [dumpVal]

theorem dumpVal_obj_cons (d : Nat) (kv : String × J) (kvs : List (String × J)) :
    dumpVal d (.obj (kv :: kvs))
      = '\x7b' :: '\n' :: (indentChars (d + 1)
          ++ (strChars kv.1 ++ ':' :: ' ' :: dumpVal (d + 1) kv.2
          ++ dumpMemberSep (d + 1) kvs ++ '\n' :: (indentChars d ++ ['\x7d']))) := by
  simp [dumpVal]

theorem dumpItemSep_nil (d : Nat) : dumpItemSep d [] = [] := by
  simp [dumpItemSep]

theorem dumpItemSep_cons (d : Nat) (x : J) (xs : List J) :
    dumpItemSep d (x :: xs)
      = ',' :: '\n' :: (indentChars d ++ (dumpVal d x ++ dumpItemSep d xs)) := by
  simp [dumpItemSep]

theorem dumpMemberSep_nil (d : Nat) : dumpMemberSep d [] = [] := by
  simp [dumpMemberSep]

theorem dumpMemberSep_cons (d : Nat) (kv : String × J) (kvs : List (String × J)) :
    dumpMemberSep d (kv :: kvs)
      = ',' :: '\n' :: (indentChars d ++ (strChars kv.1 ++ ':' :: ' ' :: dumpVal d kv.2
          ++ dumpMemberSep d kvs)) := by
  simp [dumpMemberSep]

theorem numStop_cons (c : Char) (t : List Char) :
    numStop (c :: t) = !(isDigitCh c || c = '.' || c = 'e' || c = 'E') := rfl

theorem numStop_of_ws {c : Char} (h : isWsCh c = true) (t : List Char) :
    numStop (c :: t) = true := by
  simp only [isWsCh, Bool.or_eq_true, decide_eq_true_eq] at h
  rcases h with ((h | h) | h) | h <;> subst h <;> rfl

theorem numStop_wsList (ws1 : List Char) (hws : ∀ c ∈ ws1, isWsCh c = true)
    (z : List Char) (hz : numStop z = true) : numStop (ws1 ++ z) = true := by
  cases ws1 with
  | nil => simpa using hz
  | cons c t => exact numStop_of_ws (hws c (by simp)) _

theorem parseVal_ws {ws : List Char} (h : ∀ c ∈ ws, isWsCh c = true) (f : Nat)
    (z : List Char) : parseVal f (ws ++ z) = parseVal f z := by
  cases f with
  | zero => rfl
  | succ f => simp only [parseVal, skipWs_append_ws h]

theorem parseVal_cons_ws {c : Char} (h : isWsCh c = true) (f : Nat) (z : List Char) :
    parseVal f (c :: z) = parseVal f z := by
  cases f with
  | zero => rfl
  | succ f => simp only [parseVal, skipWs_cons_ws h]

theorem parseVal_head_num {c : Char} (hws : isWsCh c = false)
    (hn : ¬ c = 'n') (ht : ¬ c = 't') (hf : ¬ c = 'f') (hq : ¬ c = '"')
    (hlb : ¬ c = '[') (hlc : ¬ c = '\x7b') (hg : c = '-' ∨ isDigitCh c = true)
    (fuel : Nat) (t : List Char) :
    parseVal (fuel + 1) (c :: t)
      = match parseNumber (c :: t) with
        | some (i, r1) => some (.num i, r1)
        | none => none := by
  have hgb : (decide (c = '-') || isDigitCh c) = true := by
    rcases hg with h | h
    · simp [h]
    · simp [h]
  simp only [parseVal, skipWs_cons_not hws]
  rw [if_neg hn, if_neg ht, if_neg hf, if_neg hq, if_neg hlb, if_neg hlc, if_pos hgb]

theorem parseVal_head_arr (fuel : Nat) (r : List Char) {c2 : Char} {r1 : List Char}
    (hskip : skipWs r = c2 :: r1) (hc2 : ¬ (c2 = ']')) :
    parseVal (fuel + 1) ('[' :: r)
      = match parseItems fuel (c2 :: r1) with
        | some (items, r2) => some (.arr items, r2)
        | none => none := by
  simp only [parseVal, skipWs_cons_not (show isWsCh '[' = false by decide)]
  simp [hskip, hc2]

theorem parseVal_head_obj (fuel : Nat) (r : List Char) {c2 : Char} {r1 : List Char}
    (hskip : skipWs r = c2 :: r1) (hc2 : ¬ (c2 = '\x7d')) :
    parseVal (fuel + 1) ('\x7b' :: r)
      = match parseMembers fuel (c2 :: r1) with
        | some (pairs, r2) => some (.obj (mkDict pairs), r2)
        | none => none := by
  simp only [parseVal, skipWs_cons_not (show isWsCh '\x7b' = false by decide)]
  simp [hskip, hc2]

theorem ws_newline_indent (d : Nat) : ∀ c ∈ ('\n' :: indentChars d), isWsCh c = true := by
  intro c hc
  rcases List.mem_cons.mp hc with rfl | hc2
  · decide
  · exact indentChars_ws d c hc2

theorem strChars_length_pos (k : String) : 2 ≤ (strChars k).length := by
  simp [strChars]

/-! ### Round-trip, step 5: the main induction -/

mutual
theorem rt_val : ∀ (j : J) (d fuel : Nat) (rest : List Char),
    wfVal j = true → (dumpVal d j).length < fuel → numStop rest = true →
    parseVal fuel (dumpVal d j ++ rest) = some (j, rest)
  | _, _, 0, _, _, hlen, _ => absurd hlen (Nat.not_lt_zero _)
  | .null, d, fuel + 1, rest, _, _, _ => by
      rw [dumpVal_null]
      simp only [List.cons_append, List.nil_append, parseVal]
      rw [skipWs_cons_not (by decide)]
      simp [expectChars]
  | .bool true, d, fuel + 1, rest, _, _, _ => by
      rw [dumpVal_true]
      simp only [List.cons_append, List.nil_append, parseVal]
      rw [skipWs_cons_not (by decide)]
      simp [expectChars]
  | .bool false, d, fuel + 1, rest, _, _, _ => by
      rw [dumpVal_false]
      simp only [List.cons_append, List.nil_append, parseVal]
      rw [skipWs_cons_not (by decide)]
      simp [expectChars]
  | .num i, d, fuel + 1, rest, _, _, hstop => by
      rw [dumpVal_num]
      by_cases hneg : i < 0
      · have harg : intChars i ++ rest = '-' :: (natChars i.natAbs ++ rest) := by
          simp [intChars, hneg]
        rw [harg, parseVal_head_num (by decide) (by decide) (by decide) (by decide)
              (by decide) (by decide) (by decide) (Or.inl rfl) fuel _, ← harg,
            parseNumber_intChars i rest hstop]
      · obtain ⟨c, t, hct, hdg, _⟩ := natChars_cons i.natAbs
        obtain ⟨hm, hp, hdot, he, hE, hws2, _, _, hn2, ht2, hf2, hq2, hlb2, hlc2⟩ :=
          digit_facts hdg
        have harg : intChars i ++ rest = c :: (t ++ rest) := by
          simp [intChars, hneg, hct]
        rw [harg, parseVal_head_num hws2 hn2 ht2 hf2 hq2 hlb2 hlc2 (Or.inr hdg) fuel _,
            ← harg, parseNumber_intChars i rest hstop]
  | .str s, d, fuel + 1, rest, _, _, _ => by
      have harg : dumpVal d (.str s) ++ rest
          = '"' :: (s.data.flatMap escChar ++ ('"' :: rest)) := by
        rw [dumpVal_str]
        simp [strChars]
      rw [harg]
      simp only [parseVal]
      rw [skipWs_cons_not (by decide)]
      simp [parseStr_strChars]
  | .arr [], d, fuel + 1, rest, _, _, _ => by
      rw [dumpVal_arr_nil]
      simp only [List.cons_append, List.nil_append, parseVal]
      rw [skipWs_cons_not (by decide)]
      simp [skipWs, isWsCh]
  | .arr (x :: xs), d, fuel + 1, rest, hwf, hlen, _ => by
      obtain ⟨hx, hxs⟩ := wfItems_cons (by simpa [wfVal] using hwf)
      have harg : dumpVal d (.arr (x :: xs)) ++ rest
          = '[' :: ('\n' :: (indentChars (d + 1) ++ (dumpVal (d + 1) x
              ++ (dumpItemSep (d + 1) xs ++ (('\n' :: indentChars d) ++ (']' :: rest)))))) := by
        rw [dumpVal_arr_cons]
        simp [List.append_assoc]
      rw [dumpVal_arr_cons] at hlen
      simp only [List.length_cons, List.length_append, List.length_nil] at hlen
      obtain ⟨c0, t0, hct0, hws0, hrb0, _⟩ := dumpVal_head (d + 1) x
      have hskip : skipWs ('\n' :: (indentChars (d + 1) ++ (dumpVal (d + 1) x
              ++ (dumpItemSep (d + 1) xs ++ (('\n' :: indentChars d) ++ (']' :: rest))))))
          = c0 :: (t0 ++ (dumpItemSep (d + 1) xs
              ++ (('\n' :: indentChars d) ++ (']' :: rest)))) := by
        rw [skipWs_cons_ws (by decide), skipWs_append_ws (indentChars_ws _),
          skipWs_dumpVal, hct0, List.cons_append]
      have hit := rt_items x xs (d + 1) fuel [] ('\n' :: indentChars d) rest
        (fun c hc => absurd hc (List.not_mem_nil c)) (ws_newline_indent d) hx hxs
        (by simp only [List.length_append, List.length_nil]; omega)
      rw [List.nil_append] at hit
      rw [harg, parseVal_head_arr fuel _ hskip hrb0, ← List.cons_append, ← hct0, hit]
  | .obj [], d, fuel + 1, rest, _, _, _ => by
      rw [dumpVal_obj_nil]
      simp only [List.cons_append, List.nil_append, parseVal]
      rw [skipWs_cons_not (by decide)]
      simp [skipWs, isWsCh]
  | .obj ((k, v) :: kvs), d, fuel + 1, rest, hwf, hlen, _ => by
      obtain ⟨hkk, hv, hkvs⟩ := wfMembers_cons (by simpa [wfVal] using hwf)
      have harg : dumpVal d (.obj ((k, v) :: kvs)) ++ rest
          = '\x7b' :: ('\n' :: (indentChars (d + 1) ++ (strChars k
              ++ (':' :: ' ' :: (dumpVal (d + 1) v ++ (dumpMemberSep (d + 1) kvs
                ++ (('\n' :: indentChars d) ++ ('\x7d' :: rest)))))))) := by
        rw [dumpVal_obj_cons]
        simp [List.append_assoc]
      rw [dumpVal_obj_cons] at hlen
      simp only [List.length_cons, List.length_append, List.length_nil] at hlen
      have hskip : skipWs ('\n' :: (indentChars (d + 1) ++ (strChars k
              ++ (':' :: ' ' :: (dumpVal (d + 1) v ++ (dumpMemberSep (d + 1) kvs
                ++ (('\n' :: indentChars d) ++ ('\x7d' :: rest))))))))
          = '"' :: ((k.data.flatMap escChar ++ ['"'])
              ++ (':' :: ' ' :: (dumpVal (d + 1) v ++ (dumpMemberSep (d + 1) kvs
                ++ (('\n' :: indentChars d) ++ ('\x7d' :: rest)))))) := by
        rw [skipWs_cons_ws (by decide), skipWs_append_ws (indentChars_ws _)]
        simp [strChars, skipWs, isWsCh, List.append_assoc]
      have hmem := rt_members k v kvs (d + 1) fuel [] ('\n' :: indentChars d) rest
        (by intro c hc; exact absurd hc (List.not_mem_nil c)) (ws_newline_indent d)
        hv hkvs (by simp only [List.nil_append, List.length_append, List.length_cons]; omega)
      rw [List.nil_append] at hmem
      rw [harg, parseVal_head_obj fuel _ hskip (by decide)]
      have hback : ('"' : Char) :: ((k.data.flatMap escChar ++ ['"'])
              ++ (':' :: ' ' :: (dumpVal (d + 1) v ++ (dumpMemberSep (d + 1) kvs
                ++ (('\n' :: indentChars d) ++ ('\x7d' :: rest))))))
          = strChars k ++ (':' :: ' ' :: (dumpVal (d + 1) v ++ (dumpMemberSep (d + 1) kvs
                ++ (('\n' :: indentChars d) ++ ('\x7d' :: rest))))) := by
        simp [strChars, List.append_assoc]
      rw [hback, hmem]
      have hmk := mkDict_self
        (show wfMembers ((k, v) :: kvs) = true from by simpa [wfVal] using hwf)
      simp [hmk]
termination_by j _ _ _ _ _ _ => sizeOf j
theorem rt_items : ∀ (x : J) (xs : List J) (d fuel : Nat) (ws0 ws1 rest : List Char),
    (∀ c ∈ ws0, isWsCh c = true) → (∀ c ∈ ws1, isWsCh c = true) →
    wfVal x = true → wfItems xs = true →
    (ws0 ++ dumpVal d x ++ dumpItemSep d xs).length + 1 < fuel →
    parseItems fuel (ws0 ++ (dumpVal d x ++ (dumpItemSep d xs ++ (ws1 ++ (']' :: rest)))))
      = some (x :: xs, rest)
  | _, _, _, 0, _, _, _, _, _, _, _, hlen => absurd hlen (Nat.not_lt_zero _)
  | x, [], d, fuel + 1, ws0, ws1, rest, hws0, hws1, hx, hxs, hlen => by
      simp only [parseItems]
      rw [parseVal_ws hws0]
      have hnum : numStop (dumpItemSep d ([] : List J) ++ (ws1 ++ (']' :: rest))) = true := by
        rw [dumpItemSep_nil, List.nil_append]
        refine numStop_wsList ws1 hws1 _ ?_
        rw [numStop_cons]
        decide
      have hlen2 : (dumpVal d x).length < fuel := by
        simp only [List.length_append] at hlen
        omega
      rw [rt_val x d fuel _ hx hlen2 hnum]
      simp only [dumpItemSep_nil, List.nil_append]
      rw [skipWs_append_ws hws1, skipWs_cons_not (by decide)]
      simp
  | x, y :: ys, d, fuel + 1, ws0, ws1, rest, hws0, hws1, hx, hxs, hlen => by
      simp only [parseItems]
      rw [parseVal_ws hws0]
      have hnum : numStop (dumpItemSep d (y :: ys) ++ (ws1 ++ (']' :: rest))) = true := by
        rw [dumpItemSep_cons]
        simp only [List.cons_append]
        rw [numStop_cons]
        decide
      have hlen2 : (dumpVal d x).length < fuel := by
        simp only [List.length_append] at hlen
        omega
      rw [rt_val x d fuel _ hx hlen2 hnum]
      obtain ⟨hy, hys⟩ := wfItems_cons hxs
      simp only [dumpItemSep_cons, List.cons_append]
      rw [skipWs_cons_not (by decide)]
      have hb : (('\n' :: indentChars d) ++ dumpVal d y ++ dumpItemSep d ys).length + 1
          < fuel := by
        rw [dumpItemSep_cons] at hlen
        simp only [List.length_append, List.length_cons] at hlen ⊢
        have := dumpVal_length_pos d x
        omega
      have hih := rt_items y ys d fuel ('\n' :: indentChars d) ws1 rest
        (ws_newline_indent d) hws1 hy hys hb
      simp only [List.cons_append, List.append_assoc] at hih ⊢
      simp [hih]
termination_by x xs _ _ _ _ _ _ _ _ => sizeOf x + sizeOf xs + 1
theorem rt_members : ∀ (k : String) (v : J) (ms : List (String × J)) (d fuel : Nat)
    (ws0 ws1 rest : List Char),
    (∀ c ∈ ws0, isWsCh c = true) → (∀ c ∈ ws1, isWsCh c = true) →
    wfVal v = true → wfMembers ms = true →
    (ws0 ++ strChars k ++ ':' :: ' ' :: dumpVal d v ++ dumpMemberSep d ms).length + 1 < fuel →
    parseMembers fuel (ws0 ++ (strChars k ++ (':' :: ' ' :: (dumpVal d v
        ++ (dumpMemberSep d ms ++ (ws1 ++ ('\x7d' :: rest)))))))
      = some ((k, v) :: ms, rest)
  | _, _, _, _, 0, _, _, _, _, _, _, _, hlen => absurd hlen (Nat.not_lt_zero _)
  | k, v, [], d, fuel + 1, ws0, ws1, rest, hws0, hws1, hv, hms, hlen => by
      simp only [parseMembers]
      rw [skipWs_append_ws hws0]
      have hstr : strChars k ++ (':' :: ' ' :: (dumpVal d v
            ++ (dumpMemberSep d ([] : List (String × J)) ++ (ws1 ++ ('\x7d' :: rest)))))
          = '"' :: (k.data.flatMap escChar ++ ('"' :: (':' :: ' ' :: (dumpVal d v
            ++ (dumpMemberSep d ([] : List (String × J)) ++ (ws1 ++ ('\x7d' :: rest))))))) := by
        simp [strChars, List.append_assoc]
      rw [hstr, skipWs_cons_not (by decide)]
      have hnum : numStop (dumpMemberSep d ([] : List (String × J))
          ++ (ws1 ++ ('\x7d' :: rest))) = true := by
        rw [dumpMemberSep_nil, List.nil_append]
        refine numStop_wsList ws1 hws1 _ ?_
        rw [numStop_cons]
        decide
      have hlen2 : (dumpVal d v).length < fuel := by
        simp only [List.length_append, List.length_cons] at hlen
        omega
      have hv2 := rt_val v d fuel
        (dumpMemberSep d ([] : List (String × J)) ++ (ws1 ++ ('\x7d' :: rest))) hv hlen2 hnum
      simp only [parseStr_strChars]
      rw [skipWs_cons_not (by decide)]
      simp only [if_pos (rfl : (':' : Char) = ':'),
        parseVal_cons_ws (show isWsCh ' ' = true by decide), hv2]
      simp only [dumpMemberSep_nil, List.nil_append]
      rw [skipWs_append_ws hws1, skipWs_cons_not (by decide)]
      simp
  | k, v, (k2, v2) :: ms2, d, fuel + 1, ws0, ws1, rest, hws0, hws1, hv, hms, hlen => by
      simp only [parseMembers]
      rw [skipWs_append_ws hws0]
      have hstr : strChars k ++ (':' :: ' ' :: (dumpVal d v
            ++ (dumpMemberSep d ((k2, v2) :: ms2) ++ (ws1 ++ ('\x7d' :: rest)))))
          = '"' :: (k.data.flatMap escChar ++ ('"' :: (':' :: ' ' :: (dumpVal d v
            ++ (dumpMemberSep d ((k2, v2) :: ms2) ++ (ws1 ++ ('\x7d' :: rest))))))) := by
        simp [strChars, List.append_assoc]
      rw [hstr, skipWs_cons_not (by decide)]
      have hnum : numStop (dumpMemberSep d ((k2, v2) :: ms2)
          ++ (ws1 ++ ('\x7d' :: rest))) = true := by
        rw [dumpMemberSep_cons]
        simp only [List.cons_append]
        rw [numStop_cons]
        decide
      have hlen2 : (dumpVal d v).length < fuel := by
        simp only [List.length_append, List.length_cons] at hlen
        omega
      have hv2 := rt_val v d fuel
        (dumpMemberSep d ((k2, v2) :: ms2) ++ (ws1 ++ ('\x7d' :: rest))) hv hlen2 hnum
      simp only [parseStr_strChars]
      rw [skipWs_cons_not (by decide)]
      simp only [if_pos (rfl : (':' : Char) = ':'),
        parseVal_cons_ws (show isWsCh ' ' = true by decide), hv2]
      obtain ⟨hk2, hv2w, hms2⟩ := wfMembers_cons hms
      simp only [dumpMemberSep_cons, List.cons_append]
      rw [skipWs_cons_not (by decide)]
      have hb : (('\n' :: indentChars d) ++ strChars k2 ++ ':' :: ' ' :: dumpVal d v2
          ++ dumpMemberSep d ms2).length + 1 < fuel := by
        rw [dumpMemberSep_cons] at hlen
        simp only [List.length_append, List.length_cons] at hlen ⊢
        have h1 := dumpVal_length_pos d v
        have h2 := strChars_length_pos k
        omega
      have hih := rt_members k2 v2 ms2 d fuel ('\n' :: indentChars d) ws1 rest
        (ws_newline_indent d) hws1 hv2w hms2 hb
      simp only [List.cons_append, List.append_assoc] at hih ⊢
      simp [hih]
termination_by k v ms _ _ _ _ _ _ _ _ _ _ => sizeOf v + sizeOf ms + 1
end

/-- C9 witness: a doubly-enveloped payload unwraps exactly one level. -/
theorem envelope_unwrap_not_recursive_witness :
    processParsed (.obj [("content", .obj [("result",
        .obj [("content", .obj [("result", .obj [("a", .num 1)])])])])])
      = .obj (stripTwo [("content", .obj [("result", .obj [("a", .num 1)])])])
    ∧ dictGet (stripTwo [("content", .obj [("result", .obj [("a", .num 1)])])]) "content"
      = some (.obj [("result", .obj [("a", .num 1)])]) :=
  envelope_unwrap_not_recursive _ _ _ rfl rfl

/-- C8: indented rendering is idempotent. For every well-formed structured value
(distinct keys per object, as any value produced by `json.loads` has), parsing the
2-space-indented rendering recovers the value exactly, so rendering the re-parsed
value yields a string identical to the first rendering. -/
theorem dumps_parse_render_idempotent (j : J) (h : wfVal j = true) :
    loads (dumps j) = some j ∧ Option.map dumps (loads (dumps j)) = some (dumps j) := by
  have hv := rt_val j 0 ((dumpVal 0 j).length + 1) [] h (Nat.lt_succ_self _) rfl
  rw [List.append_nil] at hv
  have hmain : loads (dumps j) = some j := by
    show (match parseVal ((dumpVal 0 j).length + 1) (dumpVal 0 j) with
      | some (v, rest) => if skipWs rest = [] then some v else none
      | none => none) = some j
    rw [hv]
    simp [skipWs]
  exact ⟨hmain, by rw [hmain]; rfl⟩

/-- C8 witness: the round trip evaluated on a concrete nested object. -/
theorem dumps_parse_render_idempotent_witness :
    wfVal (J.obj [("a", J.arr [J.num 1, J.str "x"]), ("b", J.null)]) = true ∧
    loads (dumps (J.obj [("a", J.arr [J.num 1, J.str "x"]), ("b", J.null)]))
      = some (J.obj [("a", J.arr [J.num 1, J.str "x"]), ("b", J.null)]) :=
  ⟨rfl, (dumps_parse_render_idempotent
    (J.obj [("a", J.arr [J.num 1, J.str "x"]), ("b", J.null)]) rfl).1⟩

end App
